import Mathlib

/-!
Verification development for the Actigraph CentrePoint DLT ingestion repository.

The authored code of the repository (src/actigraph_source.py,
src/actigraph_pipeline.py) builds a declarative configuration for the external
dlt framework and implements an OAuth2 client-credentials authenticator.  We
shallowly embed:

* the configuration construction of actigraph_source (query parameters,
  endpoint path, data selector, optional incremental section);
* the authenticator ActigraphOAuth2 (obtain_token, __call__), with HTTP
  modelled by a response oracle;
* the incremental cursor policy (accept / advance / run), which is executed by
  the external dlt library and is therefore modelled from the specification
  where the repository's own sources do not contain it.

Records are opaque string-to-string mappings, as the API returns JSON objects
and the cursor field is an ISO-8601 timestamp string compared as a whole
string.
-/

namespace Actigraph

/-- A record returned by the API: an association list from field names to
string values. -/
abbrev Record : Type := List (String × String)

/-- Field lookup on a record, the embedding of Python dict access. -/
def lookupField (r : Record) (k : String) : Option String :=
  (List.find? (fun p => p.1 == k) r).map Prod.snd

/-- Embedding of the incremental section of the endpoint configuration built
in src/actigraph_source.py lines 145-148. -/
structure IncrementalConfig where
  cursor_path : String
  initial_value : String
deriving DecidableEq, Repr

/-- Embedding of the endpoint configuration dict built in
src/actigraph_source.py lines 138-148. -/
structure EndpointConfig where
  path : String
  data_selector : String
  incremental : Option IncrementalConfig
deriving DecidableEq, Repr

/-- The incremental configuration literal of src/actigraph_source.py
lines 145-148: cursor path lastEpochDateTimeUtc, initial value the epoch-zero
sentinel. -/
def incrementalConfig : IncrementalConfig :=
  { cursor_path := "lastEpochDateTimeUtc"
    initial_value := "1970-01-01T00:00:00Z" }

/-- Embedding of the query-parameter construction of
src/actigraph_source.py lines 128-134: fromDate and toDate always, and
dailyStatisticsSettingId only when daily_statistics_setting_id is truthy
(in Python, a None or empty string is falsy). -/
def buildParams (from_date to_date : String)
    (daily_statistics_setting_id : Option String) : List (String × String) :=
  [("fromDate", from_date), ("toDate", to_date)] ++
    (match daily_statistics_setting_id with
     | none => []
     | some s => if s = "" then [] else [("dailyStatisticsSettingId", s)])

/-- Embedding of the endpoint configuration construction of
src/actigraph_source.py lines 138-148: the path template with study and
subject identifiers substituted, the fixed data selector, and the
incremental section present exactly when refresh is false. -/
def endpointConfig (study_id subject_id : Int) (refresh : Bool) :
    EndpointConfig :=
  { path := "analytics/v3/Studies/" ++ toString study_id ++ "/Subjects/" ++
      toString subject_id ++ "/DailyStatistics"
    data_selector := "items"
    incremental := if refresh then none else some incrementalConfig }

/-- Embedding of the partition-column hints applied in
src/actigraph_pipeline.py lines 54-60: study_id and ingestion_date are
declared as partition columns of the destination table schema. -/
def partitionHints : List (String × Bool) :=
  [("study_id", true), ("ingestion_date", true)]

/-- Embedding of the incremental hint applied in refresh mode by
src/actigraph_pipeline.py line 51. -/
def refreshHint : IncrementalConfig :=
  { cursor_path := "lastEpochDateTimeUtc"
    initial_value := "1970-01-01T00:00:00Z" }

/-- Modelled from the spec: the run mode of the incremental cursor policy
(spec section 4.3).  The policy itself is executed by the external dlt
framework and is not part of the repository's sources. -/
inductive Mode where
  | Incremental : Mode
  | FullReload : Mode
deriving DecidableEq, Repr

/-- Modelled from the spec: startValue (spec section 4.3) returns the
externally persisted maximum cursor value, or the epoch-zero sentinel when
none exists; in FullReload mode it always returns the sentinel. -/
def startValue : Mode → Option String → String
  | Mode.FullReload, _ => "1970-01-01T00:00:00Z"
  | Mode.Incremental, persisted => persisted.getD "1970-01-01T00:00:00Z"

/-- Lexicographic less-or-equal on character lists, the embedding of
Python's string comparison (code-point lexicographic), used for the whole
ISO-8601 string comparisons of the cursor policy. -/
def charsLe : List Char → List Char → Bool
  | [], _ => true
  | _ :: _, [] => false
  | a :: as, b :: bs =>
      if a < b then true
      else if b < a then false
      else charsLe as bs

/-- Python string less-or-equal on Lean strings. -/
def strLe (a b : String) : Bool := charsLe a.data b.data

/-- Python string strictly-less on Lean strings: the complement of the
reverse less-or-equal, as the order is total. -/
def strLt (a b : String) : Bool := ! strLe b a

/-- The larger of two strings in the Python string order, the max used by
the cursor policy's running maximum. -/
def strMax (a b : String) : String := if strLe a b then b else a

/-- Modelled from the spec: accept (spec section 4.3) is true when the
record's cursor value, compared as a whole ISO-8601 string, is at least the
starting value; a record lacking the cursor field yields none
(SchemaViolation). -/
def accept (cursor_path start : String) (r : Record) : Option Bool :=
  (lookupField r cursor_path).map (fun v => strLe start v)

/-- The cursor value of a record, with the empty string (the least string)
standing for an absent field; runs guard against absent fields separately. -/
def cursorOf (cursor_path : String) (r : Record) : String :=
  (lookupField r cursor_path).getD ""

/-- Modelled from the spec: advance (spec section 4.3) updates the running
maximum with the record's cursor value. -/
def advance (cursor_path : String) (m : String) (r : Record) : String :=
  strMax m (cursorOf cursor_path r)

/-- Modelled from the spec: one run of the incremental cursor policy over the
records of a run, as executed by the external dlt framework.  Without an
incremental section every record is emitted and no cursor is produced; with
one, the starting value is the persisted cursor or the configured initial
value, records are filtered by accept, the final cursor is the running
maximum, and a record lacking the cursor field fails the run (none). -/
def runPolicy (inc : Option IncrementalConfig) (persisted : Option String)
    (records : List Record) : Option (List Record × Option String) :=
  match inc with
  | none => some (records, none)
  | some cfg =>
      if records.all (fun r => (lookupField r cfg.cursor_path).isSome) then
        let start := persisted.getD cfg.initial_value
        some (records.filter
                (fun r => (accept cfg.cursor_path start r).getD false),
              some (records.foldl (advance cfg.cursor_path) start))
      else none

/-- Embedding of the tail of actigraph_source
(src/actigraph_source.py lines 171-176): the resource's records are returned
without modification (the source comment states partition columns are added
via file layout in config, not to the records). -/
def emitRecords (study_id subject_id : Int) (refresh : Bool)
    (persisted : Option String) (records : List Record) :
    Option (List Record × Option String) :=
  runPolicy (endpointConfig study_id subject_id refresh).incremental
    persisted records

/-- The credentials held by ActigraphOAuth2
(src/actigraph_source.py lines 22-40). -/
structure Credentials where
  access_token_url : String
  client_id : String
  client_secret : String
  scope : String
deriving DecidableEq, Repr

/-- An outbound HTTP POST as issued by obtain_token: target URL, form data
and headers. -/
structure HttpPost where
  url : String
  data : List (String × String)
  headers : List (String × String)
deriving DecidableEq, Repr

/-- The token endpoint's response, modelled as a status code and the optional
access_token member of its JSON body. -/
structure TokenResponse where
  status : Nat
  access_token : Option String
deriving DecidableEq, Repr

/-- Failure of obtain_token: raise_for_status on a 4xx or 5xx status, or a
missing access_token key in the JSON body. -/
inductive AuthError where
  | httpError : Nat → AuthError
  | missingToken : AuthError
deriving DecidableEq, Repr

/-- The POST built by obtain_token (src/actigraph_source.py lines 44-59):
grant_type, client_id, client_secret and scope as form data to the token
endpoint URL, with a form-urlencoded content type. -/
def tokenRequest (c : Credentials) : HttpPost :=
  { url := c.access_token_url
    data := [("grant_type", "client_credentials"),
             ("client_id", c.client_id),
             ("client_secret", c.client_secret),
             ("scope", c.scope)]
    headers := [("Content-Type", "application/x-www-form-urlencoded")] }

/-- Embedding of requests' Response.raise_for_status, called at
src/actigraph_source.py line 60: it raises exactly for status codes in
[400, 600). -/
def raiseForStatus (status : Nat) : Bool :=
  decide (400 ≤ status) && decide (status < 600)

/-- Embedding of ActigraphOAuth2.obtain_token
(src/actigraph_source.py lines 42-64), with the HTTP exchange replaced by the
given response: fail on a 4xx or 5xx status, else read access_token from the
JSON body and return it (caching is handled by the caller's state). -/
def obtain_token (resp : TokenResponse) : Except AuthError String :=
  if raiseForStatus resp.status then
    Except.error (AuthError.httpError resp.status)
  else
    match resp.access_token with
    | some t => Except.ok t
    | none => Except.error AuthError.missingToken

/-- An outbound resource request: just its headers, the only part __call__
touches. -/
structure Request where
  headers : List (String × String)
deriving DecidableEq, Repr

/-- Setting a header on a request, the embedding of Python dict item
assignment on request.headers (replace any previous value). -/
def setHeader (req : Request) (k v : String) : Request :=
  { headers := (req.headers.filter (fun p => p.1 ≠ k)) ++ [(k, v)] }

/-- Embedding of ActigraphOAuth2.__call__ (src/actigraph_source.py
lines 66-72) on authenticator state.  The cached token is a string with the
empty string standing for Python's None: the guard is the truthiness test
`if not self.access_token`, so both None and an empty token trigger a fetch.
Returns the new cached token, the signed request and the number of token
fetches performed (0 or 1), or the propagated obtain_token failure. -/
def callAuth (resp : TokenResponse) (tok : String) (req : Request) :
    Except AuthError (String × Request × Nat) :=
  if tok = "" then
    match obtain_token resp with
    | Except.error e => Except.error e
    | Except.ok t =>
        Except.ok (t, setHeader req "Authorization" ("Bearer " ++ t), 1)
  else
    Except.ok (tok, setHeader req "Authorization" ("Bearer " ++ tok), 0)

/-- Sequential signing of a list of requests through one authenticator,
threading the cached token and counting token fetches. -/
def signAll (resp : TokenResponse) (tok : String) :
    List Request → Except AuthError (String × List Request × Nat)
  | [] => Except.ok (tok, [], 0)
  | req :: reqs =>
      match callAuth resp tok req with
      | Except.error e => Except.error e
      | Except.ok (tok', req', n) =>
          match signAll resp tok' reqs with
          | Except.error e => Except.error e
          | Except.ok (tok'', reqs', m) =>
              Except.ok (tok'', req' :: reqs', n + m)

/-- A full run: authenticate first (lazily, on the first outbound request),
then run the incremental policy over the fetched records.  On an
authentication failure the run fails before any record is emitted. -/
def runSync (resp : TokenResponse) (inc : Option IncrementalConfig)
    (persisted : Option String) (records : List Record) :
    Except AuthError (Option (List Record × Option String)) :=
  match obtain_token resp with
  | Except.error e => Except.error e
  | Except.ok _ => Except.ok (runPolicy inc persisted records)

/-- The cursor value the external loader persists after a run: unchanged on
failure, the run's final cursor on success. -/
def persistedAfter (prev : Option String)
    (result : Except AuthError (Option (List Record × Option String))) :
    Option String :=
  match result with
  | Except.error _ => prev
  | Except.ok none => prev
  | Except.ok (some (_, c)) => c

/-- The records a run hands to the loader: none on failure. -/
def emittedOf
    (result : Except AuthError (Option (List Record × Option String))) :
    List Record :=
  match result with
  | Except.error _ => []
  | Except.ok none => []
  | Except.ok (some (rs, _)) => rs

/-- Interleaving model of concurrent first use of __call__
(src/actigraph_source.py lines 66-72).  Each thread runs the unguarded
check-then-fetch: program counter 0 is the truthiness check of the cached
token, 1 is the fetch-and-store of obtain_token (a separate atomic step,
since the network call intervenes), 2 is done.  The shared state is the
cached token (empty string for None) and the count of obtain_token calls. -/
structure SysState where
  token : String
  fetches : Nat
  pcs : List Nat
deriving DecidableEq, Repr

/-- One step of thread i of the interleaving model: a no-op when the thread
id is out of range or the thread is done. -/
def stepThread (fetched : String) (s : SysState) (i : Nat) : SysState :=
  match s.pcs.get? i with
  | none => s
  | some 0 =>
      if s.token = "" then { s with pcs := s.pcs.set i 1 }
      else { s with pcs := s.pcs.set i 2 }
  | some 1 =>
      { token := fetched, fetches := s.fetches + 1, pcs := s.pcs.set i 2 }
  | some _ => s

/-- Run a schedule (a list of thread ids) from a state. -/
def runSched (fetched : String) (s : SysState) (sched : List Nat) : SysState :=
  sched.foldl (stepThread fetched) s

/-- The initial state for n threads about to make their first sign call on a
fresh authenticator. -/
def initSys (n : Nat) : SysState :=
  { token := "", fetches := 0, pcs := List.replicate n 0 }

/-- The fully sequential schedule: each thread runs its two steps to
completion before the next starts. -/
def seqSched (n : Nat) : List Nat :=
  (List.range n).flatMap (fun i => [i, i])

/-- The number of threads of the interleaving model that are not yet done. -/
def liveCount (pcs : List Nat) : Nat :=
  pcs.countP (fun pc => decide (pc < 2))

/-! ### Order properties of the embedded Python string comparison -/

theorem charsLe_refl (l : List Char) : charsLe l l = true := by
  induction l with
  | nil => rfl
  | cons a as ih => simp [charsLe, lt_irrefl, ih]

theorem charsLe_total (l₁ l₂ : List Char) :
    charsLe l₁ l₂ = true ∨ charsLe l₂ l₁ = true := by
  induction l₁ generalizing l₂ with
  | nil => left; rfl
  | cons a as ih =>
      cases l₂ with
      | nil => right; rfl
      | cons b bs =>
          rcases lt_trichotomy a b with hab | hab | hab
          · left; simp [charsLe, hab]
          · subst hab
            rcases ih bs with h | h
            · left; simp [charsLe, lt_irrefl, h]
            · right; simp [charsLe, lt_irrefl, h]
          · right; simp [charsLe, hab]

theorem charsLe_trans {l₁ l₂ l₃ : List Char} (h₁ : charsLe l₁ l₂ = true)
    (h₂ : charsLe l₂ l₃ = true) : charsLe l₁ l₃ = true := by
  induction l₁ generalizing l₂ l₃ with
  | nil => rfl
  | cons a as ih =>
      cases l₂ with
      | nil => simp [charsLe] at h₁
      | cons b bs =>
          cases l₃ with
          | nil => simp [charsLe] at h₂
          | cons c cs =>
              simp only [charsLe] at h₁ h₂ ⊢
              rcases lt_trichotomy a b with hab | hab | hab
              · rcases lt_trichotomy b c with hbc | hbc | hbc
                · simp [lt_trans hab hbc]
                · subst hbc; simp [hab]
                · exfalso; simp [hab, lt_asymm hab, hbc, lt_asymm hbc] at h₂
              · subst hab
                rcases lt_trichotomy a c with hbc | hbc | hbc
                · simp [hbc]
                · subst hbc
                  simp only [lt_irrefl, if_false] at h₁ h₂ ⊢
                  exact ih h₁ h₂
                · exfalso; simp [lt_asymm hbc, hbc] at h₂
              · exfalso; simp [lt_asymm hab, hab] at h₁

theorem charsLe_antisymm {l₁ l₂ : List Char} (h₁ : charsLe l₁ l₂ = true)
    (h₂ : charsLe l₂ l₁ = true) : l₁ = l₂ := by
  induction l₁ generalizing l₂ with
  | nil =>
      cases l₂ with
      | nil => rfl
      | cons b bs => simp [charsLe] at h₂
  | cons a as ih =>
      cases l₂ with
      | nil => simp [charsLe] at h₁
      | cons b bs =>
          simp only [charsLe] at h₁ h₂
          rcases lt_trichotomy a b with hab | hab | hab
          · exfalso; simp [lt_asymm hab, hab] at h₂
          · subst hab
            simp only [lt_irrefl, if_false] at h₁ h₂
            exact congrArg (a :: ·) (ih h₁ h₂)
          · exfalso; simp [lt_asymm hab, hab] at h₁

theorem strLe_refl (s : String) : strLe s s = true := charsLe_refl s.data

theorem strLe_total (a b : String) : strLe a b = true ∨ strLe b a = true :=
  charsLe_total a.data b.data

theorem strLe_trans {a b c : String} (h₁ : strLe a b = true)
    (h₂ : strLe b c = true) : strLe a c = true :=
  charsLe_trans h₁ h₂

theorem strLe_antisymm {a b : String} (h₁ : strLe a b = true)
    (h₂ : strLe b a = true) : a = b :=
  String.toList_inj.mp (charsLe_antisymm h₁ h₂)

theorem strLe_strMax_left (a b : String) : strLe a (strMax a b) = true := by
  unfold strMax
  by_cases h : strLe a b = true
  · simp [h]
  · simp [h, strLe_refl]

theorem strLe_strMax_right (a b : String) : strLe b (strMax a b) = true := by
  unfold strMax
  by_cases h : strLe a b = true
  · simp [h, strLe_refl]
  · rcases strLe_total a b with h' | h'
    · exact absurd h' h
    · simp [h, h']

theorem strMax_eq_left_or_right (a b : String) :
    strMax a b = a ∨ strMax a b = b := by
  unfold strMax
  by_cases h : strLe a b = true
  · right; simp [h]
  · left; simp [h]

theorem strMax_eq_left {a b : String} (h : strLe b a = true) :
    strMax a b = a := by
  unfold strMax
  by_cases h' : strLe a b = true
  · simp [h', strLe_antisymm h' h]
  · simp [h']

theorem strMax_comm (a b : String) : strMax a b = strMax b a := by
  unfold strMax
  by_cases h₁ : strLe a b = true
  · by_cases h₂ : strLe b a = true
    · simp [h₁, h₂, strLe_antisymm h₁ h₂]
    · simp [h₁, h₂]
  · rcases strLe_total a b with h | h
    · exact absurd h h₁
    · simp [h₁, h]

theorem strMax_assoc (a b c : String) :
    strMax (strMax a b) c = strMax a (strMax b c) := by
  unfold strMax
  by_cases hab : strLe a b = true <;> by_cases hbc : strLe b c = true
  · simp [hab, hbc, strLe_trans hab hbc]
  · simp [hab, hbc]
  · simp [hab, hbc]
  · have hba : strLe b a = true := (strLe_total a b).resolve_left hab
    have hcb : strLe c b = true := (strLe_total b c).resolve_left hbc
    have hca : strLe c a = true := strLe_trans hcb hba
    simp only [hab, if_false, hbc]
    by_cases h' : strLe a c = true
    · have hac : a = c := strLe_antisymm h' hca
      subst hac
      simp [h', hab]
    · simp [h', hab]

theorem strMax_left_comm (m a b : String) :
    strMax (strMax m a) b = strMax (strMax m b) a := by
  rw [strMax_assoc, strMax_assoc, strMax_comm a b]

/-! ### Characterization of runPolicy and the running maximum -/

theorem runPolicy_some_inc {cfg : IncrementalConfig} {persisted : Option String}
    {records : List Record} {o : List Record × Option String}
    (h : runPolicy (some cfg) persisted records = some o) :
    o = (records.filter
          (fun r => (accept cfg.cursor_path (persisted.getD cfg.initial_value)
            r).getD false),
         some (records.foldl (advance cfg.cursor_path)
            (persisted.getD cfg.initial_value))) ∧
    records.all (fun r => (lookupField r cfg.cursor_path).isSome) = true := by
  by_cases hall :
      records.all (fun r => (lookupField r cfg.cursor_path).isSome) = true
  · simp only [runPolicy, hall, if_true] at h
    exact ⟨(Option.some.inj h).symm, hall⟩
  · simp [runPolicy, hall] at h

theorem foldl_advance_perm {l₁ l₂ : List Record} (h : l₁.Perm l₂)
    (p : String) : ∀ m, l₁.foldl (advance p) m = l₂.foldl (advance p) m := by
  induction h with
  | nil => intro m; rfl
  | cons x _ ih => intro m; simp only [List.foldl_cons]; exact ih _
  | swap x y l =>
      intro m
      simp only [List.foldl_cons]
      have hswap : advance p (advance p m y) x = advance p (advance p m x) y := by
        simp only [advance]; rw [strMax_left_comm]
      rw [hswap]
  | trans _ _ ih₁ ih₂ => intro m; rw [ih₁, ih₂]

theorem le_foldl_advance (l : List Record) (p : String) :
    ∀ m, strLe m (l.foldl (advance p) m) = true := by
  induction l with
  | nil => intro m; exact strLe_refl m
  | cons r l ih =>
      intro m
      simp only [List.foldl_cons]
      exact strLe_trans (by simp [advance, strLe_strMax_left]) (ih _)

theorem cursor_le_foldl_advance {l : List Record} (p : String) {r : Record}
    (hr : r ∈ l) : ∀ m, strLe (cursorOf p r) (l.foldl (advance p) m) = true := by
  induction l with
  | nil => cases hr
  | cons a l ih =>
      intro m
      simp only [List.foldl_cons]
      rcases List.mem_cons.mp hr with h | h
      · subst h
        exact strLe_trans
          (by simpa [advance] using strLe_strMax_right m (cursorOf p r)) (le_foldl_advance l p _)
      · exact ih h _

theorem foldl_advance_eq_or_mem (l : List Record) (p : String) :
    ∀ m, l.foldl (advance p) m = m ∨
      ∃ r ∈ l, cursorOf p r = l.foldl (advance p) m := by
  induction l with
  | nil => intro m; left; rfl
  | cons a l ih =>
      intro m
      simp only [List.foldl_cons]
      rcases ih (advance p m a) with h | ⟨r, hr, heq⟩
      · rw [h]
        rcases strMax_eq_left_or_right m (cursorOf p a) with h' | h'
        · left; simpa [advance] using h'
        · right
          exact ⟨a, List.mem_cons_self a l, by simpa [advance] using h'.symm⟩
      · right; exact ⟨r, List.mem_cons_of_mem a hr, heq⟩

theorem foldl_advance_of_le {l : List Record} {p : String} {m : String}
    (h : ∀ r ∈ l, strLe (cursorOf p r) m = true) :
    l.foldl (advance p) m = m := by
  induction l with
  | nil => rfl
  | cons a l ih =>
      simp only [List.foldl_cons]
      have ha : advance p m a = m := by
        simp only [advance]
        exact strMax_eq_left (h a (List.mem_cons_self a l))
      rw [ha]
      exact ih (fun r hr => h r (List.mem_cons_of_mem a hr))

/-! ### Lemmas about the authenticator embedding -/

theorem find?_after_filter (l : List (String × String)) (k v : String) :
    List.find? (fun p => p.1 == k)
      ((l.filter (fun p => p.1 ≠ k)) ++ [(k, v)]) = some (k, v) := by
  induction l with
  | nil => simp [List.find?]
  | cons a l ih =>
      by_cases ha : a.1 = k
      · simp only [List.filter_cons, ha]
        rw [if_neg (by simp)]
        exact ih
      · simp only [List.filter_cons]
        have hcond : (decide ¬a.1 = k) = true := by simp [ha]
        rw [hcond]
        simp only [List.cons_append, List.find?]
        have : (a.1 == k) = false := by simp [ha]
        rw [this]
        exact ih

theorem lookup_setHeader (req : Request) (k v : String) :
    lookupField (setHeader req k v).headers k = some v := by
  simp [lookupField, setHeader, find?_after_filter]

theorem obtain_token_ok {resp : TokenResponse} {t : String}
    (hstatus : raiseForStatus resp.status = false)
    (htok : resp.access_token = some t) :
    obtain_token resp = Except.ok t := by
  simp [obtain_token, hstatus, htok]

theorem signAll_cached {tok : String} (hne : tok ≠ "")
    (resp : TokenResponse) (reqs : List Request) :
    signAll resp tok reqs =
      Except.ok (tok,
        reqs.map (fun r => setHeader r "Authorization" ("Bearer " ++ tok)),
        0) := by
  induction reqs with
  | nil => rfl
  | cons r reqs ih => simp [signAll, callAuth, hne, ih]

/-! ### Lemmas about the interleaving model -/

theorem countP_set (p : Nat → Bool) :
    ∀ (l : List Nat) (i : Nat) (old v : Nat), l.get? i = some old →
      (l.set i v).countP p + (if p old then 1 else 0) =
        l.countP p + (if p v then 1 else 0) := by
  intro l
  induction l with
  | nil => intro i old v h; simp at h
  | cons a l ih =>
      intro i old v h
      cases i with
      | zero =>
          simp only [List.get?] at h
          cases h
          simp only [List.set, List.countP_cons]
          omega
      | succ i =>
          simp only [List.get?] at h
          simp only [List.set, List.countP_cons]
          have := ih i old v h
          omega

theorem stepThread_measure (f : String) (s : SysState) (i : Nat) :
    (stepThread f s i).fetches + liveCount (stepThread f s i).pcs ≤
      s.fetches + liveCount s.pcs := by
  unfold stepThread
  cases h : s.pcs.get? i with
  | none => exact le_refl _
  | some pc =>
      match pc with
      | 0 =>
          by_cases htok : s.token = ""
          · simp only [htok, if_true]
            have := countP_set (fun pc => decide (pc < 2)) s.pcs i 0 1 h
            simp only [liveCount]
            simp at this
            omega
          · simp only [htok, if_false]
            have := countP_set (fun pc => decide (pc < 2)) s.pcs i 0 2 h
            simp only [liveCount]
            simp at this
            omega
      | 1 =>
          have := countP_set (fun pc => decide (pc < 2)) s.pcs i 1 2 h
          simp only [liveCount]
          simp at this
          omega
      | (k + 2) => exact le_refl _

theorem runSched_measure (f : String) (sched : List Nat) :
    ∀ s : SysState, (runSched f s sched).fetches +
      liveCount (runSched f s sched).pcs ≤ s.fetches + liveCount s.pcs := by
  induction sched with
  | nil => intro s; exact le_refl _
  | cons i sched ih =>
      intro s
      have h₁ := ih (stepThread f s i)
      have h₂ := stepThread_measure f s i
      calc (runSched f s (i :: sched)).fetches +
            liveCount (runSched f s (i :: sched)).pcs
          = (runSched f (stepThread f s i) sched).fetches +
            liveCount (runSched f (stepThread f s i) sched).pcs := rfl
        _ ≤ (stepThread f s i).fetches + liveCount (stepThread f s i).pcs := h₁
        _ ≤ s.fetches + liveCount s.pcs := h₂

theorem liveCount_replicate_zero (n : Nat) :
    liveCount (List.replicate n 0) = n := by
  induction n with
  | zero => rfl
  | succ n ih => simp [liveCount, List.replicate_succ, List.countP_cons] at ih ⊢; omega

theorem stepThread_no_fetch {f : String} {s : SysState} (i : Nat)
    (htok : s.token ≠ "") (hpc : ∀ pc ∈ s.pcs, pc ≠ 1) :
    (stepThread f s i).fetches = s.fetches ∧
    (stepThread f s i).token = s.token ∧
    ∀ pc ∈ (stepThread f s i).pcs, pc ≠ 1 := by
  unfold stepThread
  cases h : s.pcs.get? i with
  | none => exact ⟨rfl, rfl, hpc⟩
  | some pc =>
      match pc with
      | 0 =>
          rw [if_neg htok]
          refine ⟨rfl, rfl, fun pc' hpc' => ?_⟩
          rcases List.mem_or_eq_of_mem_set hpc' with h' | h'
          · exact hpc pc' h'
          · simp [h']
      | 1 =>
          exact absurd (hpc 1 (List.get?_mem h)) (by simp)
      | (k + 2) => exact ⟨rfl, rfl, hpc⟩

theorem runSched_no_fetch {f : String} (sched : List Nat) :
    ∀ s : SysState, s.token ≠ "" → (∀ pc ∈ s.pcs, pc ≠ 1) →
      (runSched f s sched).fetches = s.fetches := by
  induction sched with
  | nil => intro s _ _; rfl
  | cons i sched ih =>
      intro s htok hpc
      obtain ⟨hf, ht, hp⟩ := stepThread_no_fetch (f := f) (s := s) i htok hpc
      have : (runSched f (stepThread f s i) sched).fetches =
          (stepThread f s i).fetches := ih _ (by rw [ht]; exact htok) hp
      calc (runSched f s (i :: sched)).fetches
          = (runSched f (stepThread f s i) sched).fetches := rfl
        _ = (stepThread f s i).fetches := this
        _ = s.fetches := hf

/-! ### Claim theorems -/

/-- Claim C9: for every study and subject identifier, the resource request
path equals the fixed template with the two identifiers substituted, and
records are extracted via the fixed selector key items; instantiated also at
the concrete identifiers 2775 and 22518. -/
theorem c9_path_and_selector (study_id subject_id : Int) (refresh : Bool) :
    (endpointConfig study_id subject_id refresh).path =
      "analytics/v3/Studies/" ++ toString study_id ++ "/Subjects/" ++
        toString subject_id ++ "/DailyStatistics" ∧
    (endpointConfig study_id subject_id refresh).data_selector = "items" ∧
    (endpointConfig 2775 22518 refresh).path =
      "analytics/v3/Studies/2775/Subjects/22518/DailyStatistics" := by
  exact ⟨rfl, rfl, rfl⟩

/-- Claim C10: the query parameters always contain fromDate and toDate, and
contain dailyStatisticsSettingId exactly when the supplied setting identifier
is truthy; a None or empty-string identifier is silently omitted. -/
theorem c10_query_params (from_date to_date : String) (s : Option String) :
    ("fromDate", from_date) ∈ buildParams from_date to_date s ∧
    ("toDate", to_date) ∈ buildParams from_date to_date s ∧
    ((∃ v, ("dailyStatisticsSettingId", v) ∈ buildParams from_date to_date s)
      ↔ ∃ x, s = some x ∧ x ≠ "") ∧
    buildParams from_date to_date none =
      [("fromDate", from_date), ("toDate", to_date)] ∧
    buildParams from_date to_date (some "") =
      [("fromDate", from_date), ("toDate", to_date)] := by
  refine ⟨?_, ?_, ⟨?_, ?_⟩, by simp [buildParams], by simp [buildParams]⟩
  · cases s with
    | none => simp [buildParams]
    | some a => by_cases ha : a = "" <;> simp [buildParams, ha]
  · cases s with
    | none => simp [buildParams]
    | some a => by_cases ha : a = "" <;> simp [buildParams, ha]
  · rintro ⟨v, hv⟩
    cases s with
    | none => simp [buildParams] at hv
    | some a =>
        refine ⟨a, rfl, fun ha => ?_⟩
        subst ha
        simp [buildParams] at hv
  · rintro ⟨x, rfl, hx⟩
    exact ⟨x, by simp [buildParams, hx]⟩

/-- Claim C2: in Incremental mode, a record with the cursor field is accepted
exactly when its cursor value, compared as a whole ISO-8601 string, is at
least the starting value; a value strictly below is rejected and a value
equal to the starting value is accepted. -/
theorem c2_accept_boundary (start : String) (r : Record) (v : String)
    (h : lookupField r incrementalConfig.cursor_path = some v) :
    (accept incrementalConfig.cursor_path start r = some true ↔
      strLe start v = true) ∧
    (strLt v start = true →
      accept incrementalConfig.cursor_path start r = some false) ∧
    (v = start →
      accept incrementalConfig.cursor_path start r = some true) := by
  refine ⟨by simp [accept, h], ?_, ?_⟩
  · intro hlt
    have hle : strLe start v = false := by
      simp only [strLt, Bool.not_eq_true'] at hlt
      exact hlt
    simp [accept, h, hle]
  · intro he
    subst he
    simp [accept, h, strLe_refl]

/-- Witness for C2 at concrete inputs: with starting value one day after the
record's cursor value, the record is rejected. -/
theorem c2_witness :
    accept incrementalConfig.cursor_path "2024-01-02T00:00:00Z"
      [("lastEpochDateTimeUtc", "2024-01-01T00:00:00Z")] = some false :=
  (c2_accept_boundary "2024-01-02T00:00:00Z"
      [("lastEpochDateTimeUtc", "2024-01-01T00:00:00Z")]
      "2024-01-01T00:00:00Z" rfl).2.1 (by decide)

/-- Claim C5: in FullReload mode the spec-modelled starting cursor is the
epoch-zero sentinel regardless of the persisted value, the source built with
refresh has no incremental section, every record is emitted regardless of its
cursor value, no cursor filter appears among the query parameters, and the
pipeline's refresh hint also carries the sentinel as its initial value. -/
theorem c5_full_reload (sid subid : Int) (persisted : Option String)
    (records : List Record) (fd td : String) (s : Option String) :
    startValue Mode.FullReload persisted = incrementalConfig.initial_value ∧
    (endpointConfig sid subid true).incremental = none ∧
    emitRecords sid subid true persisted records = some (records, none) ∧
    (∀ kv ∈ buildParams fd td s,
      kv.1 = "fromDate" ∨ kv.1 = "toDate" ∨
        kv.1 = "dailyStatisticsSettingId") ∧
    refreshHint.initial_value = incrementalConfig.initial_value := by
  refine ⟨rfl, rfl, rfl, ?_, rfl⟩
  intro kv hkv
  cases s with
  | none =>
      simp only [buildParams, List.append_nil, List.mem_cons,
        List.not_mem_nil, or_false] at hkv
      rcases hkv with rfl | rfl
      · left; rfl
      · right; left; rfl
  | some a =>
      by_cases ha : a = "" <;>
        simp only [buildParams, ha, if_true, if_false, List.append_nil,
          List.mem_append, List.mem_cons, List.not_mem_nil, or_false,
          List.mem_singleton] at hkv
      · rcases hkv with rfl | rfl
        · left; rfl
        · right; left; rfl
      · rcases hkv with (rfl | rfl) | rfl
        · left; rfl
        · right; left; rfl
        · right; right; rfl

/-- Counterexample to C7 as stated: an HTTP 304 response is not 2xx, yet
obtain_token does not fail on it (raise_for_status raises only for 4xx and
5xx), and the run proceeds. -/
theorem c7_counterexample :
    (¬ (200 ≤ 304 ∧ 304 < 300)) ∧
    obtain_token { status := 304, access_token := some "tok" } =
      Except.ok "tok" ∧
    runSync { status := 304, access_token := some "tok" }
      (some incrementalConfig) (some "2024-06-01T00:00:00Z") [] =
      Except.ok (some ([], some "2024-06-01T00:00:00Z")) :=
  ⟨by decide, rfl, rfl⟩

/-- Claim C7 amended: if the token endpoint returns a 4xx or 5xx response
(rather than any non-2xx response: a 3xx status does not raise), obtaining
the token fails with an error carrying the status, the run fails, zero
records are emitted and the persisted cursor value is unchanged. -/
theorem c7_auth_failure (resp : TokenResponse) (inc : Option IncrementalConfig)
    (persisted prev : Option String) (records : List Record)
    (h₁ : 400 ≤ resp.status) (h₂ : resp.status < 600) :
    runSync resp inc persisted records =
      Except.error (AuthError.httpError resp.status) ∧
    emittedOf (runSync resp inc persisted records) = [] ∧
    persistedAfter prev (runSync resp inc persisted records) = prev := by
  have hraise : raiseForStatus resp.status = true := by
    simp [raiseForStatus, h₁, h₂]
  have hrun : runSync resp inc persisted records =
      Except.error (AuthError.httpError resp.status) := by
    simp [runSync, obtain_token, hraise]
  exact ⟨hrun, by rw [hrun]; rfl, by rw [hrun]; rfl⟩

/-- Witness for the amended C7 at HTTP 400: the run fails with the status,
emits nothing and leaves the previously persisted cursor unchanged. -/
theorem c7_witness :
    (400 ≤ 400 ∧ 400 < 600) ∧
    (runSync { status := 400, access_token := none }
        (some incrementalConfig) none
        [[("lastEpochDateTimeUtc", "2024-01-01T00:00:00Z")]] =
      Except.error (AuthError.httpError 400) ∧
    emittedOf (runSync { status := 400, access_token := none }
        (some incrementalConfig) none
        [[("lastEpochDateTimeUtc", "2024-01-01T00:00:00Z")]]) = [] ∧
    persistedAfter (some "2024-06-01T00:00:00Z")
      (runSync { status := 400, access_token := none }
        (some incrementalConfig) none
        [[("lastEpochDateTimeUtc", "2024-01-01T00:00:00Z")]]) =
      some "2024-06-01T00:00:00Z") :=
  ⟨⟨by decide, by decide⟩,
    c7_auth_failure { status := 400, access_token := none }
      (some incrementalConfig) none (some "2024-06-01T00:00:00Z")
      [[("lastEpochDateTimeUtc", "2024-01-01T00:00:00Z")]]
      (by decide) (by decide)⟩

/-- Counterexample to C1 as stated: the sync emits a record that carries
neither a study_id nor an ingestion_date field — the source returns records
without modification. -/
theorem c1_counterexample :
    emitRecords 2775 22518 false none
      [[("lastEpochDateTimeUtc", "2024-01-01T00:00:00Z")]] =
      some ([[("lastEpochDateTimeUtc", "2024-01-01T00:00:00Z")]],
        some "2024-01-01T00:00:00Z") ∧
    lookupField [("lastEpochDateTimeUtc", "2024-01-01T00:00:00Z")]
      "study_id" = none ∧
    lookupField [("lastEpochDateTimeUtc", "2024-01-01T00:00:00Z")]
      "ingestion_date" = none := by
  refine ⟨by decide, rfl, rfl⟩

/-- Claim C1 amended: the source emits records without modification — every
emitted record is one of the fetched records, with no study_id or
ingestion_date field added to it; study_id and ingestion_date are only
declared as partition columns via the pipeline's schema hints. -/
theorem c1_raw_emission (sid subid : Int) (refresh : Bool)
    (persisted : Option String) (records : List Record)
    (out : List Record × Option String)
    (h : emitRecords sid subid refresh persisted records = some out) :
    (∀ r ∈ out.1, r ∈ records) ∧
    ("study_id", true) ∈ partitionHints ∧
    ("ingestion_date", true) ∈ partitionHints := by
  refine ⟨?_, by simp [partitionHints], by simp [partitionHints]⟩
  cases refresh with
  | true =>
      simp only [emitRecords, endpointConfig, if_true, runPolicy] at h
      have hout : out = (records, none) := (Option.some.inj h).symm
      subst hout
      intro r hr
      exact hr
  | false =>
      simp only [emitRecords, endpointConfig, if_false] at h
      obtain ⟨hout, -⟩ := runPolicy_some_inc h
      subst hout
      intro r hr
      exact (List.mem_filter.mp hr).1

/-- Witness for the amended C1 at a concrete input: the single emitted record
is the fetched record itself. -/
theorem c1_witness :
    (∀ r ∈ (([[("lastEpochDateTimeUtc", "2024-01-01T00:00:00Z")]],
        some "2024-01-01T00:00:00Z") :
        List Record × Option String).1,
      r ∈ [[("lastEpochDateTimeUtc", "2024-01-01T00:00:00Z")]]) ∧
    ("study_id", true) ∈ partitionHints ∧
    ("ingestion_date", true) ∈ partitionHints :=
  c1_raw_emission 2775 22518 false none
    [[("lastEpochDateTimeUtc", "2024-01-01T00:00:00Z")]]
    ([[("lastEpochDateTimeUtc", "2024-01-01T00:00:00Z")]],
      some "2024-01-01T00:00:00Z")
    (by decide)

/-- Counterexample to C3 as stated (Scenario B): re-running with the starting
cursor equal to the prior maximum re-emits the record whose cursor equals the
starting value — one record, not zero — although the final cursor is indeed
unchanged. -/
theorem c3_counterexample :
    emitRecords 2775 22518 false (some "2024-01-02T00:00:00Z")
      [[("lastEpochDateTimeUtc", "2024-01-02T00:00:00Z")],
       [("lastEpochDateTimeUtc", "2024-01-01T00:00:00Z")]] =
      some ([[("lastEpochDateTimeUtc", "2024-01-02T00:00:00Z")]],
        some "2024-01-02T00:00:00Z") ∧
    accept incrementalConfig.cursor_path "2024-01-02T00:00:00Z"
      [("lastEpochDateTimeUtc", "2024-01-02T00:00:00Z")] = some true ∧
    ([[("lastEpochDateTimeUtc", "2024-01-02T00:00:00Z")]] :
      List Record).length ≠ 0 := by
  refine ⟨by decide, by decide, by decide⟩

/-- Claim C3 amended: re-running Incremental mode over an unchanged dataset
with the starting cursor equal to the prior maximum emits exactly the records
whose cursor value equals the starting value (the boundary records are
re-emitted, since accept uses a non-strict comparison), rejects the records
strictly below it, and leaves the final cursor unchanged. -/
theorem c3_rerun_boundary (start : String) (records : List Record)
    (hall : ∀ r ∈ records, ∃ v,
      lookupField r incrementalConfig.cursor_path = some v ∧
      strLe v start = true) :
    runPolicy (some incrementalConfig) (some start) records =
      some (records.filter
        (fun r => decide (cursorOf incrementalConfig.cursor_path r = start)),
        some start) := by
  have hsome : records.all
      (fun r => (lookupField r incrementalConfig.cursor_path).isSome) = true := by
    rw [List.all_eq_true]
    intro r hr
    obtain ⟨v, hv, -⟩ := hall r hr
    simp [hv]
  have hle : ∀ r ∈ records,
      strLe (cursorOf incrementalConfig.cursor_path r) start = true := by
    intro r hr
    obtain ⟨v, hv, hvle⟩ := hall r hr
    simpa [cursorOf, hv] using hvle
  simp only [runPolicy, hsome, if_true, Option.getD_some]
  refine congrArg some (Prod.ext ?_ ?_)
  · refine List.filter_congr ?_
    intro r hr
    obtain ⟨v, hv, hvle⟩ := hall r hr
    by_cases hveq : v = start
    · subst hveq
      simp [accept, hv, cursorOf, strLe_refl]
    · have hfalse : strLe start v = false := by
        by_cases h' : strLe start v = true
        · exact absurd (strLe_antisymm h' hvle).symm hveq
        · exact Bool.eq_false_iff.mpr h'
      simp [accept, hv, cursorOf, hfalse, hveq]
  · exact congrArg some (foldl_advance_of_le hle)

/-- Witness for the amended C3 at the Scenario B inputs: one boundary record
is re-emitted and the final cursor is unchanged. -/
theorem c3_witness :
    runPolicy (some incrementalConfig) (some "2024-01-02T00:00:00Z")
      [[("lastEpochDateTimeUtc", "2024-01-02T00:00:00Z")],
       [("lastEpochDateTimeUtc", "2024-01-01T00:00:00Z")]] =
      some ([[("lastEpochDateTimeUtc", "2024-01-02T00:00:00Z")]],
        some "2024-01-02T00:00:00Z") := by
  rw [c3_rerun_boundary "2024-01-02T00:00:00Z"
    [[("lastEpochDateTimeUtc", "2024-01-02T00:00:00Z")],
     [("lastEpochDateTimeUtc", "2024-01-01T00:00:00Z")]]
    (by
      intro r hr
      simp only [List.mem_cons, List.not_mem_nil, or_false] at hr
      rcases hr with rfl | rfl
      · exact ⟨"2024-01-02T00:00:00Z", rfl, by decide⟩
      · exact ⟨"2024-01-01T00:00:00Z", rfl, by decide⟩)]
  decide

/-- Claim C4: the final cursor of an Incremental run is the maximum of the
starting value and the cursor values of all records processed, and is
invariant under permutation of the records (page order does not matter). -/
theorem c4_final_cursor (sid subid : Int) (persisted : Option String)
    (l₁ l₂ : List Record) (o₁ o₂ : List Record × Option String)
    (hperm : l₁.Perm l₂)
    (h₁ : emitRecords sid subid false persisted l₁ = some o₁)
    (h₂ : emitRecords sid subid false persisted l₂ = some o₂) :
    o₁.2 = o₂.2 ∧
    ∃ m, o₁.2 = some m ∧
      strLe (persisted.getD incrementalConfig.initial_value) m = true ∧
      (∀ r ∈ l₁, strLe (cursorOf incrementalConfig.cursor_path r) m = true) ∧
      (m = persisted.getD incrementalConfig.initial_value ∨
        ∃ r ∈ l₁, cursorOf incrementalConfig.cursor_path r = m) := by
  simp only [emitRecords, endpointConfig, if_false] at h₁ h₂
  obtain ⟨ho₁, -⟩ := runPolicy_some_inc h₁
  obtain ⟨ho₂, -⟩ := runPolicy_some_inc h₂
  subst ho₁
  subst ho₂
  constructor
  · exact congrArg some
      (foldl_advance_perm hperm incrementalConfig.cursor_path _)
  · refine ⟨l₁.foldl (advance incrementalConfig.cursor_path)
      (persisted.getD incrementalConfig.initial_value), rfl,
      le_foldl_advance l₁ incrementalConfig.cursor_path _,
      fun r hr => cursor_le_foldl_advance incrementalConfig.cursor_path hr _,
      ?_⟩
    rcases foldl_advance_eq_or_mem l₁ incrementalConfig.cursor_path
        (persisted.getD incrementalConfig.initial_value) with h | ⟨r, hr, he⟩
    · left; exact h
    · right; exact ⟨r, hr, he⟩

/-- Witness for C4 at the Scenario A records in both page orders: the final
cursor is the larger cursor value either way. -/
theorem c4_witness :
    (([[("lastEpochDateTimeUtc", "2024-01-01T00:00:00Z")],
       [("lastEpochDateTimeUtc", "2024-01-02T00:00:00Z")]],
      some "2024-01-02T00:00:00Z") :
        List Record × Option String).2 =
    (([[("lastEpochDateTimeUtc", "2024-01-02T00:00:00Z")],
       [("lastEpochDateTimeUtc", "2024-01-01T00:00:00Z")]],
      some "2024-01-02T00:00:00Z") :
        List Record × Option String).2 ∧
    ∃ m, (([[("lastEpochDateTimeUtc", "2024-01-01T00:00:00Z")],
       [("lastEpochDateTimeUtc", "2024-01-02T00:00:00Z")]],
      some "2024-01-02T00:00:00Z") :
        List Record × Option String).2 = some m ∧
      strLe ((none : Option String).getD incrementalConfig.initial_value)
        m = true ∧
      (∀ r ∈ [[("lastEpochDateTimeUtc", "2024-01-01T00:00:00Z")],
        [("lastEpochDateTimeUtc", "2024-01-02T00:00:00Z")]],
        strLe (cursorOf incrementalConfig.cursor_path r) m = true) ∧
      (m = (none : Option String).getD incrementalConfig.initial_value ∨
        ∃ r ∈ [[("lastEpochDateTimeUtc", "2024-01-01T00:00:00Z")],
          [("lastEpochDateTimeUtc", "2024-01-02T00:00:00Z")]],
          cursorOf incrementalConfig.cursor_path r = m) :=
  c4_final_cursor 2775 22518 none
    [[("lastEpochDateTimeUtc", "2024-01-01T00:00:00Z")],
     [("lastEpochDateTimeUtc", "2024-01-02T00:00:00Z")]]
    [[("lastEpochDateTimeUtc", "2024-01-02T00:00:00Z")],
     [("lastEpochDateTimeUtc", "2024-01-01T00:00:00Z")]]
    ([[("lastEpochDateTimeUtc", "2024-01-01T00:00:00Z")],
      [("lastEpochDateTimeUtc", "2024-01-02T00:00:00Z")]],
      some "2024-01-02T00:00:00Z")
    ([[("lastEpochDateTimeUtc", "2024-01-02T00:00:00Z")],
      [("lastEpochDateTimeUtc", "2024-01-01T00:00:00Z")]],
      some "2024-01-02T00:00:00Z")
    (List.Perm.swap
      [("lastEpochDateTimeUtc", "2024-01-02T00:00:00Z")]
      [("lastEpochDateTimeUtc", "2024-01-01T00:00:00Z")] [])
    (by decide) (by decide)

/-- Claim C6: the token request POSTs grant_type=client_credentials,
client_id, client_secret and scope as URL-encoded form data to the token
endpoint; when the fetched token is non-empty, signing a non-empty sequence
of requests sequentially fetches the token exactly once and stamps every
signed request with an Authorization Bearer header carrying it. -/
theorem c6_sign_and_cache (c : Credentials) (resp : TokenResponse)
    (t : String) (reqs : List Request)
    (hstatus : raiseForStatus resp.status = false)
    (htok : resp.access_token = some t) (hne : t ≠ "") (hreqs : reqs ≠ []) :
    tokenRequest c =
      { url := c.access_token_url
        data := [("grant_type", "client_credentials"),
                 ("client_id", c.client_id),
                 ("client_secret", c.client_secret),
                 ("scope", c.scope)]
        headers := [("Content-Type", "application/x-www-form-urlencoded")] } ∧
    ∃ signed : List Request,
      signAll resp "" reqs = Except.ok (t, signed, 1) ∧
      signed.length = reqs.length ∧
      ∀ r ∈ signed, lookupField r.headers "Authorization" =
        some ("Bearer " ++ t) := by
  refine ⟨rfl, ?_⟩
  cases reqs with
  | nil => exact absurd rfl hreqs
  | cons req rest =>
      refine ⟨setHeader req "Authorization" ("Bearer " ++ t) ::
        rest.map (fun r => setHeader r "Authorization" ("Bearer " ++ t)),
        ?_, by simp, ?_⟩
      · simp [signAll, callAuth, obtain_token_ok hstatus htok,
          signAll_cached hne]
      · intro r hr
        rcases List.mem_cons.mp hr with rfl | hr
        · exact lookup_setHeader _ _ _
        · obtain ⟨r₀, -, rfl⟩ := List.mem_map.mp hr
          exact lookup_setHeader _ _ _

/-- Witness for C6 at a concrete authenticator and two requests: one token
fetch for two sequential sign calls, both signed with the bearer header. -/
theorem c6_witness :
    ∃ signed : List Request,
      signAll { status := 200, access_token := some "tok" } ""
        [{ headers := [] }, { headers := [("Accept", "application/json")] }] =
        Except.ok ("tok", signed, 1) ∧
      signed.length =
        ([{ headers := [] },
          { headers := [("Accept", "application/json")] }] :
            List Request).length ∧
      ∀ r ∈ signed, lookupField r.headers "Authorization" =
        some ("Bearer " ++ "tok") :=
  (c6_sign_and_cache
    { access_token_url := "https://auth.actigraphcorp.com/connect/token"
      client_id := "id"
      client_secret := "secret"
      scope := "CentrePoint DataAccess Analytics DataRetrieval" }
    { status := 200, access_token := some "tok" } "tok"
    [{ headers := [] }, { headers := [("Accept", "application/json")] }]
    (by decide) rfl (by decide) (by decide)).2

/-- Counterexample to C8 as stated: with two concurrent first-use sign calls
on one authenticator, the schedule in which both threads pass the truthiness
check before either fetch completes performs two obtain_token calls, not
exactly one — the code has no single-flight guard. -/
theorem c8_counterexample :
    runSched "tok" (initSys 2) [0, 1, 0, 1] =
      { token := "tok", fetches := 2, pcs := [2, 2] } ∧ (2 : Nat) ≠ 1 := by
  refine ⟨by decide, by decide⟩

/-- Claim C8 amended: the unguarded check-then-fetch of the authenticator
bounds the number of obtain_token calls by the number of callers, not by
one; under any schedule of n concurrent first-use sign calls at most n
fetches occur, and when the calls are fully sequential (each completes
before the next begins) exactly one fetch occurs. -/
theorem c8_fetch_bounds (f : String) (n : Nat) (sched : List Nat) :
    (runSched f (initSys n) sched).fetches ≤ n ∧
    (1 ≤ n → f ≠ "" →
      (runSched f (initSys n) (seqSched n)).fetches = 1) := by
  constructor
  · have h := runSched_measure f sched (initSys n)
    have hlive : liveCount (initSys n).pcs = n := liveCount_replicate_zero n
    have hf : (initSys n).fetches = 0 := rfl
    omega
  · intro hn hf
    cases n with
    | zero => omega
    | succ m =>
        have hsched : seqSched (m + 1) =
            [0, 0] ++ (List.range m).flatMap (fun i => [i + 1, i + 1]) := by
          simp [seqSched, List.range_succ_eq_map, List.flatMap_cons,
            List.flatMap_map, Nat.succ_eq_add_one]
        have hinit : initSys (m + 1) =
            { token := "", fetches := 0, pcs := 0 :: List.replicate m 0 } := by
          simp [initSys, List.replicate_succ]
        have hpair : runSched f
            { token := "", fetches := 0, pcs := 0 :: List.replicate m 0 }
            [0, 0] =
            { token := f, fetches := 1, pcs := 2 :: List.replicate m 0 } := rfl
        rw [hsched, hinit]
        have happ : runSched f
            { token := "", fetches := 0, pcs := 0 :: List.replicate m 0 }
            ([0, 0] ++ (List.range m).flatMap (fun i => [i + 1, i + 1])) =
            runSched f
              { token := f, fetches := 1, pcs := 2 :: List.replicate m 0 }
              ((List.range m).flatMap (fun i => [i + 1, i + 1])) := by
          simp only [runSched, List.foldl_append]
          rw [show List.foldl (stepThread f)
            { token := "", fetches := 0, pcs := 0 :: List.replicate m 0 }
            [0, 0] =
            { token := f, fetches := 1, pcs := 2 :: List.replicate m 0 }
            from hpair]
        rw [happ]
        refine runSched_no_fetch _ _ hf ?_
        intro pc hpc
        rcases List.mem_cons.mp hpc with rfl | hpc
        · decide
        · rw [List.eq_of_mem_replicate hpc]
          decide

/-- Witness for the amended C8: with three threads an arbitrary schedule
fetches at most three times, and the sequential schedule fetches exactly
once. -/
theorem c8_witness :
    (runSched "tok" (initSys 3) [0, 1, 2, 0, 1, 2]).fetches ≤ 3 ∧
    (runSched "tok" (initSys 3) (seqSched 3)).fetches = 1 :=
  ⟨(c8_fetch_bounds "tok" 3 [0, 1, 2, 0, 1, 2]).1,
    (c8_fetch_bounds "tok" 3 [0, 1, 2, 0, 1, 2]).2 (by decide) (by decide)⟩

end Actigraph
